import Mathlib

/-!
Verification of the EIP status-migration script (migrate_eip_status.py).

The script moves each entry of a document-level forkRelationships array
from the deprecated single status string to a statusHistory array.
We embed the JSON data model and the transform as executable Lean
definitions and prove the specified properties about them.

Modelling conventions:
- JSON values are a tagged union; numbers are modelled as integers
  (no claim depends on numeric arithmetic or float formatting).
- Python dicts are association lists with unique keys in insertion
  order, as produced by json.loads; the dict operations below agree
  with Python dict semantics on such lists.
- File content is modelled at the parsed level: an Option Json, where
  none stands for content that fails to parse (or an unreadable file).
  Serialization followed by parsing is the identity on parsed values,
  so returning original bytes corresponds to returning the same value.
- A Python exception escaping a function is modelled with Except.
-/

set_option autoImplicit false

/-- JSON values: null, booleans, numbers, strings, arrays, objects. -/
inductive Json where
  | null : Json
  | bool : Bool → Json
  | num : Int → Json
  | str : String → Json
  | arr : List Json → Json
  | obj : List (String × Json) → Json
deriving Repr

/-- Python truthiness of a JSON value: None, False, 0, empty string,
empty list and empty dict are falsy; everything else is truthy. -/
def Json.isTruthy : Json → Bool
  | .null => false
  | .bool b => b
  | .num n => n != 0
  | .str s => !s.isEmpty
  | .arr xs => !xs.isEmpty
  | .obj fs => !fs.isEmpty

/-- Dict lookup, d.get(k): value at the key, or none when absent. -/
def dictGet : List (String × Json) → String → Option Json
  | [], _ => none
  | (k', v) :: rest, k => if k' = k then some v else dictGet rest k

/-- Whether the dict has the key. -/
def dictContains : List (String × Json) → String → Bool
  | [], _ => false
  | (k', _) :: rest, k => k' == k || dictContains rest k

/-- Dict update d[k] = v: replace the value at an existing key in
place (keeping its position), else append the new pair at the end.
Matches Python dict assignment and the {**d, k: v} spread. -/
def dictInsert (fs : List (String × Json)) (k : String) (v : Json) :
    List (String × Json) :=
  if dictContains fs k then
    fs.map fun p => if p.1 = k then (k, v) else p
  else fs ++ [(k, v)]

/-- Dict removal d.pop(k, None): drop the key when present. -/
def dictErase (fs : List (String × Json)) (k : String) :
    List (String × Json) :=
  fs.filter fun p => p.1 != k

/-- Python expression (v or d) for an optional value v, as in
fork.get("statusHistory") or []: the value when present and truthy,
else the default. -/
def pyOr (v : Option Json) (d : Json) : Json :=
  match v with
  | some x => if x.isTruthy then x else d
  | none => d

/-- The body of the per-entry loop of migrate_eip_file: transform one
element of forkRelationships and report whether it set the modified
flag. Non-dict elements pass through unchanged. For a dict: take
status_history = fork.get("statusHistory") or [], write it back under
statusHistory, and when the status value is a string, promote it into
a one-element history when it is non-empty and status_history is
falsy, pop status, and set the flag. -/
def migrateFork (fork : Json) : Json × Bool :=
  match fork with
  | .obj fs =>
    let statusHistory := pyOr (dictGet fs "statusHistory") (.arr [])
    let newFork := dictInsert fs "statusHistory" statusHistory
    match dictGet fs "status" with
    | some (.str statusValue) =>
      let newFork :=
        if !statusValue.isEmpty && !statusHistory.isTruthy then
          dictInsert newFork "statusHistory"
            (.arr [.obj [("status", .str statusValue)]])
        else newFork
      (.obj (dictErase newFork "status"), true)
    | _ => (.obj newFork, false)
  | v => (v, false)

/-- The pure document transform inside migrate_eip_file, between
parsing and the optional rewrite: when the top-level value is a dict
whose forkRelationships is a list, rebuild that list entry by entry
and report whether any entry set the modified flag; when the dict has
no such list the document is returned unchanged and unmodified. On a
non-dict top-level value, data.get raises AttributeError (modelled as
none), which escapes migrate_eip_file uncaught. -/
def migrateDocument (data : Json) : Option (Json × Bool) :=
  match data with
  | .obj fs =>
    match dictGet fs "forkRelationships" with
    | some (.arr forks) =>
      let results := forks.map migrateFork
      some (.obj (dictInsert fs "forkRelationships"
              (.arr (results.map Prod.fst))),
            results.any Prod.snd)
    | _ => some (data, false)
  | _ => none

/-- migrate_eip_file at the level of parsed file content: for
unparseable or unreadable content (none) the exception is caught, the
file is reported unmodified and left untouched; otherwise the document
transform runs and the file is rewritten only when it reports a
modification. Returns the on-disk content after the call together with
the returned flag; error is an uncaught exception. -/
def migrate_eip_file (content : Option Json) :
    Except Unit (Option Json × Bool) :=
  match content with
  | none => .ok (none, false)
  | some d =>
    match migrateDocument d with
    | some (d', c) => .ok (if c then some d' else some d, c)
    | none => .error ()

/-- The summary printed by main: total file count and migrated count. -/
structure Summary where
  total : Nat
  migrated : Nat
deriving Repr, DecidableEq

/-- The unchanged count printed by main: len(files) - migrated. -/
def Summary.unchanged (s : Summary) : Nat := s.total - s.migrated

/-- The per-file loop of main: count the files whose migration
reported a modification, propagating any uncaught exception. -/
def countMigrated : List (Option Json) → Except Unit Nat
  | [] => .ok 0
  | f :: rest =>
    match migrate_eip_file f with
    | .error e => .error e
    | .ok (_, c) =>
      match countMigrated rest with
      | .error e => .error e
      | .ok n => .ok ((if c then 1 else 0) + n)

/-- The batch run of main over a list of file contents: the summary
reports every file in the total and the count of migrated files. -/
def runMigration (files : List (Option Json)) : Except Unit Summary :=
  match countMigrated files with
  | .error e => .error e
  | .ok m => .ok ⟨files.length, m⟩

/-- Whether a forkRelationships element is a dict whose status value
is a string: exactly the condition under which the loop body sets the
modified flag. -/
def entryHasStringStatus (f : Json) : Bool :=
  match f with
  | .obj fs =>
    match dictGet fs "status" with
    | some (.str _) => true
    | _ => false
  | _ => false

/-- Modelled from the wording of the spec, for comparison with the
code: the existing history of an entry is the statusHistory value when
it is a non-null sequence, else the empty sequence. -/
def existingHistorySpec (fs : List (String × Json)) : Json :=
  match dictGet fs "statusHistory" with
  | some (.arr xs) => .arr xs
  | _ => .arr []

/-- The existing history actually used by the code:
fork.get("statusHistory") or []. -/
def existingHistoryCode (fs : List (String × Json)) : Json :=
  pyOr (dictGet fs "statusHistory") (.arr [])

/-- Modelled from the amended wording: the existing history is the
statusHistory value when that value is truthy under Python truthiness,
and the empty sequence otherwise (absent, null, false, zero, empty
string, empty sequence or empty object). -/
def existingHistoryAmended (fs : List (String × Json)) : Json :=
  match dictGet fs "statusHistory" with
  | some v => if v.isTruthy then v else Json.arr []
  | none => Json.arr []

/-! ## Lemmas about the dict operations -/

theorem dictGet_append (fs tail : List (String × Json)) (k : String) :
    dictGet (fs ++ tail) k =
      match dictGet fs k with
      | some v => some v
      | none => dictGet tail k := by
  induction fs with
  | nil => rfl
  | cons p rest ih =>
    obtain ⟨k', v⟩ := p
    by_cases hk : k' = k
    · simp [dictGet, hk]
    · simp [dictGet, hk, ih]

theorem dictGet_map_replace (fs : List (String × Json)) (k : String)
    (v : Json) (h : dictContains fs k = true) :
    dictGet (fs.map fun p => if p.1 = k then (k, v) else p) k = some v := by
  induction fs with
  | nil => simp [dictContains] at h
  | cons p rest ih =>
    obtain ⟨k', w⟩ := p
    dsimp only [List.map_cons]
    by_cases hk : k' = k
    · subst hk
      rw [if_pos rfl]
      simp [dictGet]
    · rw [if_neg hk]
      simp only [dictGet]
      rw [if_neg hk]
      apply ih
      simp only [dictContains, Bool.or_eq_true, beq_iff_eq] at h
      exact h.resolve_left hk

theorem dictGet_map_replace_ne (fs : List (String × Json)) (k : String)
    (v : Json) (k' : String) (h : k' ≠ k) :
    dictGet (fs.map fun p => if p.1 = k then (k, v) else p) k' =
      dictGet fs k' := by
  induction fs with
  | nil => rfl
  | cons p rest ih =>
    obtain ⟨k₀, w⟩ := p
    dsimp only [List.map_cons]
    by_cases hk : k₀ = k
    · subst hk
      rw [if_pos rfl]
      simp only [dictGet]
      rw [if_neg (Ne.symm h), if_neg (Ne.symm h), ih]
    · rw [if_neg hk]
      simp only [dictGet]
      rw [ih]

theorem dictGet_insert_self (fs : List (String × Json)) (k : String)
    (v : Json) : dictGet (dictInsert fs k v) k = some v := by
  unfold dictInsert
  by_cases h : dictContains fs k = true
  · rw [if_pos h]
    exact dictGet_map_replace fs k v h
  · rw [if_neg h, dictGet_append]
    have hnone : dictGet fs k = none := by
      induction fs with
      | nil => rfl
      | cons p rest ih =>
        obtain ⟨k', w⟩ := p
        simp only [dictContains, Bool.or_eq_true, beq_iff_eq] at h
        push_neg at h
        simp [dictGet, h.1, ih (by simpa using h.2)]
    simp [hnone, dictGet]

theorem dictGet_insert_ne (fs : List (String × Json)) (k : String)
    (v : Json) (k' : String) (h : k' ≠ k) :
    dictGet (dictInsert fs k v) k' = dictGet fs k' := by
  unfold dictInsert
  by_cases hc : dictContains fs k = true
  · rw [if_pos hc]
    exact dictGet_map_replace_ne fs k v k' h
  · rw [if_neg hc, dictGet_append]
    have htail : dictGet [(k, v)] k' = none := by
      simp [dictGet, Ne.symm h]
    rw [htail]
    cases hfs : dictGet fs k' <;> rfl

theorem dictGet_erase_self (fs : List (String × Json)) (k : String) :
    dictGet (dictErase fs k) k = none := by
  induction fs with
  | nil => rfl
  | cons p rest ih =>
    obtain ⟨k', w⟩ := p
    by_cases hk : k' = k
    · simp [dictErase, List.filter_cons, hk, ih]
      simpa [dictErase] using ih
    · simp only [dictErase, List.filter_cons] at ih ⊢
      simp [hk, dictGet, ih]

theorem dictGet_erase_ne (fs : List (String × Json)) (k : String)
    (k' : String) (h : k' ≠ k) :
    dictGet (dictErase fs k) k' = dictGet fs k' := by
  induction fs with
  | nil => rfl
  | cons p rest ih =>
    obtain ⟨k₀, w⟩ := p
    by_cases hk : k₀ = k
    · subst hk
      simp only [dictErase, List.filter_cons] at ih ⊢
      simp [dictGet, Ne.symm h, ih]
    · simp only [dictErase, List.filter_cons] at ih ⊢
      simp [hk, dictGet, ih]

/-! ## Lemmas about the per-entry transform -/

theorem migrateFork_snd (f : Json) :
    (migrateFork f).2 = entryHasStringStatus f := by
  cases f with
  | obj fs =>
    simp only [migrateFork, entryHasStringStatus]
    cases hst : dictGet fs "status" with
    | none => rfl
    | some v => cases v <;> rfl
  | null => rfl
  | bool b => rfl
  | num n => rfl
  | str s => rfl
  | arr xs => rfl

theorem migrateFork_fst_noStringStatus (f : Json) :
    entryHasStringStatus (migrateFork f).1 = false := by
  cases f with
  | obj fs =>
    cases hst : dictGet fs "status" with
    | none =>
      simp only [migrateFork, hst]
      simp only [entryHasStringStatus]
      rw [dictGet_insert_ne _ _ _ _ (by decide), hst]
    | some v =>
      cases v with
      | str s =>
        simp only [migrateFork, hst]
        simp only [entryHasStringStatus]
        rw [dictGet_erase_self]
      | null =>
        simp only [migrateFork, hst]
        simp only [entryHasStringStatus]
        rw [dictGet_insert_ne _ _ _ _ (by decide), hst]
      | bool b =>
        simp only [migrateFork, hst]
        simp only [entryHasStringStatus]
        rw [dictGet_insert_ne _ _ _ _ (by decide), hst]
      | num n =>
        simp only [migrateFork, hst]
        simp only [entryHasStringStatus]
        rw [dictGet_insert_ne _ _ _ _ (by decide), hst]
      | arr xs =>
        simp only [migrateFork, hst]
        simp only [entryHasStringStatus]
        rw [dictGet_insert_ne _ _ _ _ (by decide), hst]
      | obj gs =>
        simp only [migrateFork, hst]
        simp only [entryHasStringStatus]
        rw [dictGet_insert_ne _ _ _ _ (by decide), hst]
  | null => rfl
  | bool b => rfl
  | num n => rfl
  | str s => rfl
  | arr xs => rfl

theorem migrateFork_str (fs : List (String × Json)) (s : String)
    (hst : dictGet fs "status" = some (.str s)) :
    ∃ gs, migrateFork (Json.obj fs) = (Json.obj gs, true) ∧
      dictGet gs "status" = none := by
  simp only [migrateFork, hst]
  split
  · exact ⟨_, rfl, dictGet_erase_self _ _⟩
  · exact ⟨_, rfl, dictGet_erase_self _ _⟩

theorem migrateFork_obj_hasHistory (fs : List (String × Json)) :
    ∃ gs c h, migrateFork (Json.obj fs) = (Json.obj gs, c) ∧
      dictGet gs "statusHistory" = some h := by
  cases hst : dictGet fs "status" with
  | none =>
    simp only [migrateFork, hst]
    exact ⟨_, _, _, rfl, dictGet_insert_self _ _ _⟩
  | some v =>
    cases v with
    | str s =>
      simp only [migrateFork, hst]
      split
      · exact ⟨_, _, Json.arr [Json.obj [("status", Json.str s)]], rfl, by
          rw [dictGet_erase_ne _ _ _ (by decide)]
          exact dictGet_insert_self _ _ _⟩
      · exact ⟨_, _, pyOr (dictGet fs "statusHistory") (Json.arr []), rfl, by
          rw [dictGet_erase_ne _ _ _ (by decide)]
          exact dictGet_insert_self _ _ _⟩
    | null =>
      simp only [migrateFork, hst]
      exact ⟨_, _, _, rfl, dictGet_insert_self _ _ _⟩
    | bool b =>
      simp only [migrateFork, hst]
      exact ⟨_, _, _, rfl, dictGet_insert_self _ _ _⟩
    | num n =>
      simp only [migrateFork, hst]
      exact ⟨_, _, _, rfl, dictGet_insert_self _ _ _⟩
    | arr xs =>
      simp only [migrateFork, hst]
      exact ⟨_, _, _, rfl, dictGet_insert_self _ _ _⟩
    | obj gs =>
      simp only [migrateFork, hst]
      exact ⟨_, _, _, rfl, dictGet_insert_self _ _ _⟩

theorem countMigrated_skip (pre post : List (Option Json)) :
    countMigrated (pre ++ none :: post) = countMigrated (pre ++ post) := by
  induction pre with
  | nil =>
    simp only [List.nil_append, countMigrated, migrate_eip_file]
    cases hc : countMigrated post <;> simp
  | cons f pre ih =>
    show (match migrate_eip_file f with
      | Except.error e => (Except.error e : Except Unit Nat)
      | Except.ok (_, c) =>
        match countMigrated (pre ++ none :: post) with
        | Except.error e => Except.error e
        | Except.ok n => Except.ok ((if c then 1 else 0) + n))
      = (match migrate_eip_file f with
      | Except.error e => (Except.error e : Except Unit Nat)
      | Except.ok (_, c) =>
        match countMigrated (pre ++ post) with
        | Except.error e => Except.error e
        | Except.ok n => Except.ok ((if c then 1 else 0) + n))
    rw [ih]

/-! ## Lemmas about the document transform -/

theorem pyOr_eq_default_of_not_truthy (o : Option Json) (d : Json)
    (h : (pyOr o d).isTruthy = false) : pyOr o d = d := by
  cases o with
  | none => rfl
  | some v =>
    simp only [pyOr] at h ⊢
    by_cases hv : v.isTruthy = true
    · rw [if_pos hv] at h
      exact absurd h (by simp [hv])
    · rw [if_neg hv]

theorem list_any_map {α β : Type} (l : List α) (f : α → β)
    (p : β → Bool) : (l.map f).any p = l.any fun x => p (f x) := by
  induction l with
  | nil => rfl
  | cons x xs ih => simp [List.any_cons, ih]

theorem migrateDocument_obj_arr (fs : List (String × Json))
    (forks : List Json)
    (hfr : dictGet fs "forkRelationships" = some (Json.arr forks)) :
    migrateDocument (Json.obj fs)
      = some (Json.obj (dictInsert fs "forkRelationships"
                (Json.arr (forks.map fun f => (migrateFork f).1))),
              forks.any fun f => (migrateFork f).2) := by
  simp only [migrateDocument, hfr, List.map_map, list_any_map]
  exact rfl

theorem migrateDocument_obj_noarr (fs : List (String × Json))
    (h : ∀ forks, dictGet fs "forkRelationships" ≠ some (Json.arr forks)) :
    migrateDocument (Json.obj fs) = some (Json.obj fs, false) := by
  simp only [migrateDocument]

/-! ## Claim theorems -/

/-- C8: on the document with forkRelationships [ entry with an empty
string status ], the transform returns the document whose only entry
is the object carrying statusHistory equal to the empty sequence (the
empty-string status is removed without promoting a history entry) and
reports the document as changed. -/
theorem c8_empty_status_ignored :
    migrateDocument (Json.obj [("forkRelationships",
        Json.arr [Json.obj [("status", Json.str "")]])])
      = some (Json.obj [("forkRelationships",
          Json.arr [Json.obj [("statusHistory", Json.arr [])]])], true) :=
  rfl

/-- C1 counterexample: on the document whose only entry has the
numeric status 5, the migrated output entry still carries the status
key, so it is false that every output entry lacks the status key
whatever type the input status had. -/
theorem c1_counterexample :
    migrateDocument (Json.obj [("forkRelationships",
        Json.arr [Json.obj [("status", Json.num 5)]])])
      = some (Json.obj [("forkRelationships",
          Json.arr [Json.obj [("status", Json.num 5),
            ("statusHistory", Json.arr [])]])], false)
    ∧ dictGet [("status", Json.num 5), ("statusHistory", Json.arr [])]
        "status" = some (Json.num 5) :=
  ⟨rfl, rfl⟩

/-- C5 counterexample: the document whose forkRelationships array
holds one empty object entry is reported unchanged, so the file is not
rewritten: the on-disk content keeps the entry without a statusHistory
key, contradicting the claim that the on-disk file is normalized. -/
theorem c5_counterexample :
    migrate_eip_file (some (Json.obj [("forkRelationships",
        Json.arr [Json.obj []])]))
      = .ok (some (Json.obj [("forkRelationships",
          Json.arr [Json.obj []])]), false)
    ∧ dictGet ([] : List (String × Json)) "statusHistory" = none :=
  ⟨rfl, rfl⟩

/-- C6 counterexample: for an entry whose statusHistory is the string
"abc", the code keeps that truthy non-sequence value as the existing
history, while the claim says a non-sequence value yields the empty
sequence; observably, a non-empty status is then not promoted. -/
theorem c6_counterexample :
    existingHistoryCode [("statusHistory", Json.str "abc")]
      = Json.str "abc"
    ∧ existingHistorySpec [("statusHistory", Json.str "abc")]
      = Json.arr []
    ∧ existingHistoryCode [("statusHistory", Json.str "abc")]
      ≠ existingHistorySpec [("statusHistory", Json.str "abc")]
    ∧ migrateFork (Json.obj [("status", Json.str "X"),
        ("statusHistory", Json.str "abc")])
      = (Json.obj [("statusHistory", Json.str "abc")], true) :=
  ⟨rfl, rfl, fun h => Json.noConfusion h, rfl⟩

/-- C7: when the top-level object has no forkRelationships array
(missing, null, or any non-array value), the transform returns the
original document unchanged with changed false, and the file is not
rewritten. -/
theorem c7_noop_absent (fs : List (String × Json))
    (h : ∀ forks, dictGet fs "forkRelationships"
      ≠ some (Json.arr forks)) :
    migrateDocument (Json.obj fs) = some (Json.obj fs, false) ∧
    migrate_eip_file (some (Json.obj fs))
      = .ok (some (Json.obj fs), false) := by
  have h1 := migrateDocument_obj_noarr fs h
  refine ⟨h1, ?_⟩
  simp only [migrate_eip_file]
  rw [h1]
  exact rfl

/-- C7 witness: the empty object document is a no-op. -/
theorem c7_noop_absent_witness :
    migrateDocument (Json.obj []) = some (Json.obj [], false) ∧
    migrate_eip_file (some (Json.obj []))
      = .ok (some (Json.obj []), false) :=
  c7_noop_absent [] (by intro forks hc; simp [dictGet] at hc)

/-- C2: idempotence. Whenever the transform completes on a document
(returning a result rather than raising), running it again on the
returned document reports no change: after one pass no entry carries a
string status, so the second pass never sets the modified flag. -/
theorem c2_idempotent (d d₁ : Json) (c₁ : Bool)
    (h : migrateDocument d = some (d₁, c₁)) :
    ∃ d₂, migrateDocument d₁ = some (d₂, false) := by
  cases d with
  | obj fs =>
    by_cases harr : ∃ forks,
        dictGet fs "forkRelationships" = some (Json.arr forks)
    · obtain ⟨forks, hfr⟩ := harr
      rw [migrateDocument_obj_arr fs forks hfr] at h
      simp only [Option.some.injEq, Prod.mk.injEq] at h
      obtain ⟨hd, hc⟩ := h
      subst hd
      have hfr₁ : dictGet (dictInsert fs "forkRelationships"
            (Json.arr (forks.map fun f => (migrateFork f).1)))
            "forkRelationships"
          = some (Json.arr (forks.map fun f => (migrateFork f).1)) :=
        dictGet_insert_self _ _ _
      have hany : ((forks.map fun f => (migrateFork f).1).any
          fun f => (migrateFork f).2) = false := by
        rw [List.any_eq_false]
        intro g hg
        obtain ⟨f, hf, rfl⟩ := List.mem_map.mp hg
        simp [migrateFork_snd, migrateFork_fst_noStringStatus]
      exact ⟨_, by rw [migrateDocument_obj_arr _ _ hfr₁, hany]⟩
    · push_neg at harr
      rw [migrateDocument_obj_noarr fs harr] at h
      simp only [Option.some.injEq, Prod.mk.injEq] at h
      obtain ⟨hd, hc⟩ := h
      subst hd
      exact ⟨_, migrateDocument_obj_noarr fs harr⟩
  | null => simp [migrateDocument] at h
  | bool b => simp [migrateDocument] at h
  | num n => simp [migrateDocument] at h
  | str s => simp [migrateDocument] at h
  | arr xs => simp [migrateDocument] at h

/-- C2 witness: the second pass on the migrated form of a document
with one promoted entry reports no change. -/
theorem c2_idempotent_witness :
    ∃ d₂, migrateDocument (Json.obj [("forkRelationships",
        Json.arr [Json.obj [("statusHistory",
          Json.arr [Json.obj [("status", Json.str "A")]])]])])
      = some (d₂, false) :=
  c2_idempotent
    (Json.obj [("forkRelationships",
      Json.arr [Json.obj [("status", Json.str "A")]])])
    (Json.obj [("forkRelationships",
      Json.arr [Json.obj [("statusHistory",
        Json.arr [Json.obj [("status", Json.str "A")]])]])])
    true rfl

/-- C3: status promotion. For an entry whose status is a non-empty
string and whose statusHistory is absent or the explicitly present
empty sequence, the transformed entry has statusHistory equal to the
one-element sequence holding an object with that status string, the
status key is removed, the entry sets the modified flag, and any
document whose forkRelationships array contains the entry is reported
changed. -/
theorem c3_status_promotion (fs : List (String × Json)) (s : String)
    (hst : dictGet fs "status" = some (Json.str s)) (hne : s ≠ "")
    (hh : dictGet fs "statusHistory" = none ∨
      dictGet fs "statusHistory" = some (Json.arr [])) :
    ∃ gs, migrateFork (Json.obj fs) = (Json.obj gs, true) ∧
      dictGet gs "statusHistory"
        = some (Json.arr [Json.obj [("status", Json.str s)]]) ∧
      dictGet gs "status" = none ∧
      ∀ dfs forks,
        dictGet dfs "forkRelationships" = some (Json.arr forks) →
        Json.obj fs ∈ forks →
        ∃ d', migrateDocument (Json.obj dfs) = some (d', true) := by
  have hOr : pyOr (dictGet fs "statusHistory") (Json.arr [])
      = Json.arr [] := by
    rcases hh with hh | hh <;> rw [hh] <;> exact rfl
  have hemp : s.isEmpty = false := by
    cases he : s.isEmpty
    · rfl
    · exact absurd ((String.isEmpty_iff s).mp he) hne
  have hcond : (!s.isEmpty && !(Json.arr []).isTruthy) = true := by
    simp [Json.isTruthy, hemp]
  simp only [migrateFork, hst, hOr]
  rw [if_pos hcond]
  refine ⟨_, rfl, ?_, ?_, ?_⟩
  · rw [dictGet_erase_ne _ _ _ (by decide)]
    exact dictGet_insert_self _ _ _
  · exact dictGet_erase_self _ _
  · intro dfs forks hdfr hmem
    have hany : (forks.any fun f => (migrateFork f).2) = true := by
      refine List.any_eq_true.mpr ⟨Json.obj fs, hmem, ?_⟩
      rw [migrateFork_snd]
      simp [entryHasStringStatus, hst]
    exact ⟨_, by rw [migrateDocument_obj_arr dfs forks hdfr, hany]⟩

/-- C3 witness: the single entry with status Included and no
statusHistory is promoted. -/
theorem c3_status_promotion_witness :
    ∃ gs, migrateFork (Json.obj [("status", Json.str "Included")])
        = (Json.obj gs, true) ∧
      dictGet gs "statusHistory"
        = some (Json.arr [Json.obj [("status", Json.str "Included")]]) ∧
      dictGet gs "status" = none ∧
      ∀ dfs forks,
        dictGet dfs "forkRelationships" = some (Json.arr forks) →
        Json.obj [("status", Json.str "Included")] ∈ forks →
        ∃ d', migrateDocument (Json.obj dfs) = some (d', true) :=
  c3_status_promotion _ _ rfl (by decide) (Or.inl rfl)

/-- C4: preserve existing history. For an entry whose status is a
string and whose statusHistory is a non-empty sequence, the
transformed entry keeps that statusHistory exactly, drops the status
key, sets the modified flag, and any document whose forkRelationships
array contains the entry is reported changed. -/
theorem c4_preserve_history (fs : List (String × Json)) (s : String)
    (hist : List Json) (hst : dictGet fs "status" = some (Json.str s))
    (hh : dictGet fs "statusHistory" = some (Json.arr hist))
    (hne : hist ≠ []) :
    ∃ gs, migrateFork (Json.obj fs) = (Json.obj gs, true) ∧
      dictGet gs "statusHistory" = some (Json.arr hist) ∧
      dictGet gs "status" = none ∧
      ∀ dfs forks,
        dictGet dfs "forkRelationships" = some (Json.arr forks) →
        Json.obj fs ∈ forks →
        ∃ d', migrateDocument (Json.obj dfs) = some (d', true) := by
  obtain ⟨a, t, rfl⟩ : ∃ a t, hist = a :: t := by
    cases hist with
    | nil => exact absurd rfl hne
    | cons a t => exact ⟨a, t, rfl⟩
  have hOr : pyOr (dictGet fs "statusHistory") (Json.arr [])
      = Json.arr (a :: t) := by
    rw [hh]; exact rfl
  have hcond : (!s.isEmpty && !(Json.arr (a :: t)).isTruthy) = false := by
    simp [Json.isTruthy]
  simp only [migrateFork, hst, hOr]
  rw [if_neg (by simp [hcond])]
  refine ⟨_, rfl, ?_, ?_, ?_⟩
  · rw [dictGet_erase_ne _ _ _ (by decide)]
    exact dictGet_insert_self _ _ _
  · exact dictGet_erase_self _ _
  · intro dfs forks hdfr hmem
    have hany : (forks.any fun f => (migrateFork f).2) = true := by
      refine List.any_eq_true.mpr ⟨Json.obj fs, hmem, ?_⟩
      rw [migrateFork_snd]
      simp [entryHasStringStatus, hst]
    exact ⟨_, by rw [migrateDocument_obj_arr dfs forks hdfr, hany]⟩

/-- C4 witness: an entry with status Draft and an existing one-element
history keeps the history and drops the status. -/
theorem c4_preserve_history_witness :
    ∃ gs, migrateFork (Json.obj [("status", Json.str "Draft"),
        ("statusHistory", Json.arr [Json.obj [("status",
          Json.str "Final")]])])
        = (Json.obj gs, true) ∧
      dictGet gs "statusHistory"
        = some (Json.arr [Json.obj [("status", Json.str "Final")]]) ∧
      dictGet gs "status" = none ∧
      ∀ dfs forks,
        dictGet dfs "forkRelationships" = some (Json.arr forks) →
        Json.obj [("status", Json.str "Draft"),
          ("statusHistory", Json.arr [Json.obj [("status",
            Json.str "Final")]])] ∈ forks →
        ∃ d', migrateDocument (Json.obj dfs) = some (d', true) :=
  c4_preserve_history _ _ _ rfl rfl (by simp)

/-- C1 (amended): after migration of a document with a
forkRelationships array, no output entry carries a string-valued
status: every entry whose status was a string has the status key
removed, while a non-string status value is retained. -/
theorem c1_no_string_status_after (fs : List (String × Json))
    (forks : List Json) (d' : Json) (c : Bool)
    (hfr : dictGet fs "forkRelationships" = some (Json.arr forks))
    (h : migrateDocument (Json.obj fs) = some (d', c)) :
    ∃ fs', d' = Json.obj fs' ∧
      dictGet fs' "forkRelationships"
        = some (Json.arr (forks.map fun f => (migrateFork f).1)) ∧
      (∀ f ∈ forks, entryHasStringStatus (migrateFork f).1 = false) ∧
      ∀ f ∈ forks, ∀ ffs s, f = Json.obj ffs →
        dictGet ffs "status" = some (Json.str s) →
        ∃ gs, migrateFork f = (Json.obj gs, true) ∧
          dictGet gs "status" = none := by
  rw [migrateDocument_obj_arr fs forks hfr] at h
  simp only [Option.some.injEq, Prod.mk.injEq] at h
  obtain ⟨hd, hc⟩ := h
  subst hd
  refine ⟨_, rfl, dictGet_insert_self _ _ _, ?_, ?_⟩
  · intro f hf
    exact migrateFork_fst_noStringStatus f
  · intro f hf ffs s hfo hstf
    subst hfo
    exact migrateFork_str ffs s hstf

/-- C1 witness: a document with one string-status entry and one
numeric entry. -/
theorem c1_no_string_status_after_witness :
    ∃ fs', (Json.obj [("forkRelationships", Json.arr
        [Json.obj [("statusHistory",
          Json.arr [Json.obj [("status", Json.str "A")]])],
         Json.num 7])] : Json) = Json.obj fs' ∧
      dictGet fs' "forkRelationships"
        = some (Json.arr ([Json.obj [("status", Json.str "A")],
            Json.num 7].map fun f => (migrateFork f).1)) ∧
      (∀ f ∈ [Json.obj [("status", Json.str "A")], Json.num 7],
        entryHasStringStatus (migrateFork f).1 = false) ∧
      ∀ f ∈ [Json.obj [("status", Json.str "A")], Json.num 7],
        ∀ ffs s, f = Json.obj ffs →
        dictGet ffs "status" = some (Json.str s) →
        ∃ gs, migrateFork f = (Json.obj gs, true) ∧
          dictGet gs "status" = none :=
  c1_no_string_status_after
    [("forkRelationships",
      Json.arr [Json.obj [("status", Json.str "A")], Json.num 7])]
    [Json.obj [("status", Json.str "A")], Json.num 7]
    (Json.obj [("forkRelationships", Json.arr
      [Json.obj [("statusHistory",
        Json.arr [Json.obj [("status", Json.str "A")]])],
       Json.num 7])])
    true rfl rfl

/-- C5 (amended): after migration of a document with a
forkRelationships array, every object entry of the returned
(in-memory) document carries a statusHistory key; the on-disk file is
rewritten (and hence normalized) exactly when the document is marked
changed, and keeps its original content otherwise. -/
theorem c5_normalization (fs : List (String × Json))
    (forks : List Json) (d' : Json) (c : Bool)
    (hfr : dictGet fs "forkRelationships" = some (Json.arr forks))
    (h : migrateDocument (Json.obj fs) = some (d', c)) :
    ∃ fs', d' = Json.obj fs' ∧
      dictGet fs' "forkRelationships"
        = some (Json.arr (forks.map fun f => (migrateFork f).1)) ∧
      (∀ f ∈ forks, ∀ gfs, (migrateFork f).1 = Json.obj gfs →
        ∃ hv, dictGet gfs "statusHistory" = some hv) ∧
      migrate_eip_file (some (Json.obj fs))
        = .ok (if c then some d' else some (Json.obj fs), c) := by
  rw [migrateDocument_obj_arr fs forks hfr] at h
  simp only [Option.some.injEq, Prod.mk.injEq] at h
  obtain ⟨hd, hc⟩ := h
  subst hd
  subst hc
  refine ⟨_, rfl, dictGet_insert_self _ _ _, ?_, ?_⟩
  · intro f hf gfs hgf
    cases f with
    | obj ffs =>
      obtain ⟨gs, c₀, hv, heq, hget⟩ := migrateFork_obj_hasHistory ffs
      rw [heq] at hgf
      simp only [Json.obj.injEq] at hgf
      subst hgf
      exact ⟨hv, hget⟩
    | null => simp [migrateFork] at hgf
    | bool b => simp [migrateFork] at hgf
    | num n => simp [migrateFork] at hgf
    | str s => simp [migrateFork] at hgf
    | arr xs => simp [migrateFork] at hgf
  · simp only [migrate_eip_file]
    rw [migrateDocument_obj_arr fs forks hfr]

/-- C5 witness: a changed document is rewritten in normalized form. -/
theorem c5_normalization_witness :
    ∃ fs', (Json.obj [("forkRelationships", Json.arr
        [Json.obj [("statusHistory",
          Json.arr [Json.obj [("status", Json.str "A")]])]])] : Json)
        = Json.obj fs' ∧
      dictGet fs' "forkRelationships"
        = some (Json.arr ([Json.obj [("status", Json.str "A")]].map
            fun f => (migrateFork f).1)) ∧
      (∀ f ∈ [Json.obj [("status", Json.str "A")]],
        ∀ gfs, (migrateFork f).1 = Json.obj gfs →
        ∃ hv, dictGet gfs "statusHistory" = some hv) ∧
      migrate_eip_file (some (Json.obj [("forkRelationships",
          Json.arr [Json.obj [("status", Json.str "A")]])]))
        = .ok (some (Json.obj [("forkRelationships", Json.arr
            [Json.obj [("statusHistory",
              Json.arr [Json.obj [("status", Json.str "A")]])]])]),
            true) :=
  c5_normalization
    [("forkRelationships", Json.arr [Json.obj [("status",
      Json.str "A")]])]
    [Json.obj [("status", Json.str "A")]]
    (Json.obj [("forkRelationships", Json.arr
      [Json.obj [("statusHistory",
        Json.arr [Json.obj [("status", Json.str "A")]])]])])
    true rfl rfl

/-- C6 (amended): the existing history used by the transform equals
the statusHistory value when that value is truthy under Python
truthiness and the empty sequence otherwise; the transformed entry
then carries the promoted one-element history exactly when the status
is a non-empty string and the existing history is empty, and carries
the existing history unchanged otherwise. -/
theorem c6_truthy_history (fs : List (String × Json)) :
    existingHistoryCode fs = existingHistoryAmended fs ∧
    ∃ gs c, migrateFork (Json.obj fs) = (Json.obj gs, c) ∧
      ((∃ s, dictGet fs "status" = some (Json.str s) ∧
          s.isEmpty = false ∧
          existingHistoryAmended fs = Json.arr [] ∧
          dictGet gs "statusHistory"
            = some (Json.arr [Json.obj [("status", Json.str s)]]))
       ∨ dictGet gs "statusHistory"
          = some (existingHistoryAmended fs)) := by
  have hca : existingHistoryCode fs = existingHistoryAmended fs := by
    cases hsh : dictGet fs "statusHistory" <;>
      simp [existingHistoryCode, existingHistoryAmended, pyOr, hsh]
  refine ⟨hca, ?_⟩
  cases hst : dictGet fs "status" with
  | none =>
    simp only [migrateFork, hst]
    refine ⟨_, _, rfl, Or.inr ?_⟩
    rw [← hca]
    exact dictGet_insert_self _ _ _
  | some v =>
    cases v with
    | str s =>
      simp only [migrateFork, hst]
      split
      · next hcnd =>
          rw [Bool.and_eq_true] at hcnd
          obtain ⟨h1, h2⟩ := hcnd
          refine ⟨_, _, rfl, Or.inl ⟨s, rfl, ?_, ?_, ?_⟩⟩
          · simpa using h1
          · rw [← hca]
            exact pyOr_eq_default_of_not_truthy _ _ (by simpa using h2)
          · rw [dictGet_erase_ne _ _ _ (by decide)]
            exact dictGet_insert_self _ _ _
      · next hcnd =>
          refine ⟨_, _, rfl, Or.inr ?_⟩
          rw [dictGet_erase_ne _ _ _ (by decide), ← hca]
          exact dictGet_insert_self _ _ _
    | null =>
      simp only [migrateFork, hst]
      refine ⟨_, _, rfl, Or.inr ?_⟩
      rw [← hca]
      exact dictGet_insert_self _ _ _
    | bool b =>
      simp only [migrateFork, hst]
      refine ⟨_, _, rfl, Or.inr ?_⟩
      rw [← hca]
      exact dictGet_insert_self _ _ _
    | num n =>
      simp only [migrateFork, hst]
      refine ⟨_, _, rfl, Or.inr ?_⟩
      rw [← hca]
      exact dictGet_insert_self _ _ _
    | arr xs =>
      simp only [migrateFork, hst]
      refine ⟨_, _, rfl, Or.inr ?_⟩
      rw [← hca]
      exact dictGet_insert_self _ _ _
    | obj os =>
      simp only [migrateFork, hst]
      refine ⟨_, _, rfl, Or.inr ?_⟩
      rw [← hca]
      exact dictGet_insert_self _ _ _

/-- C9: parse-failure isolation. A file that fails to parse is
reported unchanged without raising; inserting such a file anywhere in
a batch leaves the migrated count unchanged, adds one to the total,
and the reported unchanged count stays total minus migrated. -/
theorem c9_parse_failure_isolation (pre post : List (Option Json))
    (s : Summary) (h : runMigration (pre ++ post) = .ok s) :
    migrate_eip_file none = .ok (none, false) ∧
    runMigration (pre ++ none :: post) = .ok ⟨s.total + 1, s.migrated⟩ ∧
    Summary.unchanged ⟨s.total + 1, s.migrated⟩
      = s.total + 1 - s.migrated := by
  refine ⟨rfl, ?_, rfl⟩
  unfold runMigration at h ⊢
  rw [countMigrated_skip]
  cases hc : countMigrated (pre ++ post) with
  | error e =>
    rw [hc] at h
    simp at h
  | ok m =>
    rw [hc] at h
    simp only [Except.ok.injEq] at h
    subst h
    have hlen : (pre ++ none :: post).length
        = (pre ++ post).length + 1 := by
      simp only [List.length_append, List.length_cons]
      omega
    rw [hlen]

/-- C9 witness: a batch holding only one unparseable file. -/
theorem c9_parse_failure_isolation_witness :
    migrate_eip_file none = .ok (none, false) ∧
    runMigration [none] = .ok ⟨1, 0⟩ ∧
    Summary.unchanged ⟨1, 0⟩ = 1 - 0 :=
  c9_parse_failure_isolation [] [] ⟨0, 0⟩ rfl

/-- C10: the changed flag holds exactly when the document is an object
whose forkRelationships is an array containing at least one object
entry with a string status value; an unchanged document is never
rewritten to disk. -/
theorem c10_changed_iff (d d' : Json) (c : Bool)
    (h : migrateDocument d = some (d', c)) :
    (c = true ↔ ∃ fs forks, d = Json.obj fs ∧
      dictGet fs "forkRelationships" = some (Json.arr forks) ∧
      ∃ f ∈ forks, entryHasStringStatus f = true) ∧
    (c = false →
      migrate_eip_file (some d) = .ok (some d, false)) := by
  cases d with
  | obj fs =>
    by_cases harr : ∃ forks,
        dictGet fs "forkRelationships" = some (Json.arr forks)
    · obtain ⟨forks, hfr⟩ := harr
      rw [migrateDocument_obj_arr fs forks hfr] at h
      simp only [Option.some.injEq, Prod.mk.injEq] at h
      obtain ⟨hd, hc⟩ := h
      subst hc
      constructor
      · constructor
        · intro hany
          refine ⟨fs, forks, rfl, hfr, ?_⟩
          simp only [migrateFork_snd] at hany
          exact List.any_eq_true.mp hany
        · rintro ⟨fs₂, forks₂, heq, hfr₂, f, hmem, hf⟩
          injection heq with heq
          subst heq
          rw [hfr] at hfr₂
          simp only [Option.some.injEq, Json.arr.injEq] at hfr₂
          subst hfr₂
          simp only [migrateFork_snd]
          exact List.any_eq_true.mpr ⟨f, hmem, hf⟩
      · intro hcf
        simp only [migrate_eip_file]
        rw [migrateDocument_obj_arr fs forks hfr, hcf]
        exact rfl
    · push_neg at harr
      rw [migrateDocument_obj_noarr fs harr] at h
      simp only [Option.some.injEq, Prod.mk.injEq] at h
      obtain ⟨hd, hc⟩ := h
      subst hd
      subst hc
      refine ⟨⟨?_, ?_⟩, ?_⟩
      · intro hc1
        exact Bool.noConfusion hc1
      · rintro ⟨fs₂, forks₂, heq, hfr₂, -⟩
        injection heq with heq
        subst heq
        exact absurd hfr₂ (harr forks₂)
      · intro hcf
        simp only [migrate_eip_file]
        rw [migrateDocument_obj_noarr fs harr]
        exact rfl
  | null => simp [migrateDocument] at h
  | bool b => simp [migrateDocument] at h
  | num n => simp [migrateDocument] at h
  | str s => simp [migrateDocument] at h
  | arr xs => simp [migrateDocument] at h

/-- C10 witness: a one-entry document with a string status is
reported changed, and the characterization instantiates to it. -/
theorem c10_changed_iff_witness :
    ((true = true) ↔ ∃ fs forks,
      (Json.obj [("forkRelationships",
        Json.arr [Json.obj [("status", Json.str "A")]])] : Json)
        = Json.obj fs ∧
      dictGet fs "forkRelationships" = some (Json.arr forks) ∧
      ∃ f ∈ forks, entryHasStringStatus f = true) ∧
    (true = false →
      migrate_eip_file (some (Json.obj [("forkRelationships",
          Json.arr [Json.obj [("status", Json.str "A")]])]))
        = .ok (some (Json.obj [("forkRelationships",
            Json.arr [Json.obj [("status", Json.str "A")]])]),
            false)) :=
  c10_changed_iff
    (Json.obj [("forkRelationships",
      Json.arr [Json.obj [("status", Json.str "A")]])])
    (Json.obj [("forkRelationships",
      Json.arr [Json.obj [("statusHistory",
        Json.arr [Json.obj [("status", Json.str "A")]])]])])
    true rfl
